import Mathlib

/-!
# Verification of the botanical gantry / scan-and-water server

This file is a shallow embedding, in Lean 4, of the core logic of the
plant-watering gantry controller (`src/app/server/server.py` and
`src/cv_work/scan_water.py`), together with theorems settling the frozen
claims about that code.

Modelling conventions:
* Python floats are modelled as rationals (`ℚ`); all arithmetic in the
  embedded code paths is exact (additions, subtractions, `min`/`max`
  comparisons against constants), so `ℚ` is a faithful carrier.
* Wall-clock time (`time.time()`) is passed in explicitly as a `ℚ` argument.
* `threading.Event` cancellation and hardware replies are modelled as an
  explicit environment (`ScanEnv`) consulted at the same program points
  where the Python code consults them.
* Python dicts holding string keys are modelled as insertion-ordered
  association lists, matching dict semantics for `in`, indexing,
  `setdefault` (appends at the end when the key is absent) and item
  assignment (updates in place when present, appends otherwise).
-/

namespace Botanical

/-! ## Gantry safety layer (`server.py`, `cmd_move_xy`) -/

/-- `GANTRY_MAX_X_MM` from `server.py`. -/
def GANTRY_MAX_X_MM : ℚ := 400

/-- `GANTRY_MAX_Y_MM` from `server.py`. -/
def GANTRY_MAX_Y_MM : ℚ := 400

/-- The tracked gantry position (`gantry_pos` in `server.py`). -/
structure GantryPos where
  x : ℚ
  y : ℚ
deriving Repr, DecidableEq

namespace Server

/-- Embedding of `cmd_move_xy` from `server.py` (lines 72-93): the
boundary-enforced wrapper around the raw `MOVE XY` serial command.
Returns the updated tracked position together with the delta handed to the
raw serial move, or `none` when the move is skipped because the actual
delta is within epsilon (0.01 mm) of zero on both axes. -/
def cmd_move_xy (pos : GantryPos) (dx_mm dy_mm : ℚ) :
    GantryPos × Option (ℚ × ℚ) :=
  let new_x := max 0 (min GANTRY_MAX_X_MM (pos.x + dx_mm))
  let new_y := max 0 (min GANTRY_MAX_Y_MM (pos.y + dy_mm))
  let actual_dx := new_x - pos.x
  let actual_dy := new_y - pos.y
  if |actual_dx| < 1/100 ∧ |actual_dy| < 1/100 then
    (⟨new_x, new_y⟩, none)
  else
    (⟨new_x, new_y⟩, some (actual_dx, actual_dy))

end Server

/-- C1: `cmd_move_xy` clamps the tracked position per axis, keeps it within
`[0, GANTRY_MAX_X_MM] × [0, GANTRY_MAX_Y_MM]`, passes exactly
(clamped target − old position) to the raw serial move whenever it issues
one, and when the unclamped target is already in bounds on both axes the
actual delta equals the requested delta exactly. -/
theorem C1_cmd_move_xy_clamps (px py dx dy : ℚ)
    (hx0 : 0 ≤ px) (hx1 : px ≤ GANTRY_MAX_X_MM)
    (hy0 : 0 ≤ py) (hy1 : py ≤ GANTRY_MAX_Y_MM) :
    (Server.cmd_move_xy ⟨px, py⟩ dx dy).1.x
        = max 0 (min GANTRY_MAX_X_MM (px + dx)) ∧
    (Server.cmd_move_xy ⟨px, py⟩ dx dy).1.y
        = max 0 (min GANTRY_MAX_Y_MM (py + dy)) ∧
    (0 ≤ (Server.cmd_move_xy ⟨px, py⟩ dx dy).1.x ∧
      (Server.cmd_move_xy ⟨px, py⟩ dx dy).1.x ≤ GANTRY_MAX_X_MM ∧
      0 ≤ (Server.cmd_move_xy ⟨px, py⟩ dx dy).1.y ∧
      (Server.cmd_move_xy ⟨px, py⟩ dx dy).1.y ≤ GANTRY_MAX_Y_MM) ∧
    (∀ d : ℚ × ℚ, (Server.cmd_move_xy ⟨px, py⟩ dx dy).2 = some d →
      d.1 = (Server.cmd_move_xy ⟨px, py⟩ dx dy).1.x - px ∧
      d.2 = (Server.cmd_move_xy ⟨px, py⟩ dx dy).1.y - py) ∧
    ((0 ≤ px + dx ∧ px + dx ≤ GANTRY_MAX_X_MM ∧
      0 ≤ py + dy ∧ py + dy ≤ GANTRY_MAX_Y_MM) →
      (Server.cmd_move_xy ⟨px, py⟩ dx dy).1.x - px = dx ∧
      (Server.cmd_move_xy ⟨px, py⟩ dx dy).1.y - py = dy) := by
  have hMX : (0:ℚ) ≤ GANTRY_MAX_X_MM := by norm_num [GANTRY_MAX_X_MM]
  have hMY : (0:ℚ) ≤ GANTRY_MAX_Y_MM := by norm_num [GANTRY_MAX_Y_MM]
  simp only [Server.cmd_move_xy]
  split
  · refine ⟨rfl, rfl, ⟨le_max_left _ _, max_le hMX (min_le_left _ _),
      le_max_left _ _, max_le hMY (min_le_left _ _)⟩, ?_, ?_⟩
    · intro d hd; simp at hd
    · rintro ⟨h1, h2, h3, h4⟩
      constructor
      · simp only [min_eq_right h2, max_eq_right h1]; ring
      · simp only [min_eq_right h4, max_eq_right h3]; ring
  · refine ⟨rfl, rfl, ⟨le_max_left _ _, max_le hMX (min_le_left _ _),
      le_max_left _ _, max_le hMY (min_le_left _ _)⟩, ?_, ?_⟩
    · intro d hd
      simp only [Option.some.injEq] at hd
      subst hd
      exact ⟨rfl, rfl⟩
    · rintro ⟨h1, h2, h3, h4⟩
      constructor
      · simp only [min_eq_right h2, max_eq_right h1]; ring
      · simp only [min_eq_right h4, max_eq_right h3]; ring

/-- Witness for C1 at the concrete in-bounds position (100, 100) with
requested delta (50, −30). -/
theorem C1_witness :
    (0 ≤ (100:ℚ) ∧ (100:ℚ) ≤ GANTRY_MAX_X_MM) ∧
    ((Server.cmd_move_xy ⟨100, 100⟩ 50 (-30)).1.x
        = max 0 (min GANTRY_MAX_X_MM (100 + 50)) ∧
      (Server.cmd_move_xy ⟨100, 100⟩ 50 (-30)).1.y
        = max 0 (min GANTRY_MAX_Y_MM (100 + -30)) ∧
      (0 ≤ (Server.cmd_move_xy ⟨100, 100⟩ 50 (-30)).1.x ∧
        (Server.cmd_move_xy ⟨100, 100⟩ 50 (-30)).1.x ≤ GANTRY_MAX_X_MM ∧
        0 ≤ (Server.cmd_move_xy ⟨100, 100⟩ 50 (-30)).1.y ∧
        (Server.cmd_move_xy ⟨100, 100⟩ 50 (-30)).1.y ≤ GANTRY_MAX_Y_MM) ∧
      (∀ d : ℚ × ℚ, (Server.cmd_move_xy ⟨100, 100⟩ 50 (-30)).2 = some d →
        d.1 = (Server.cmd_move_xy ⟨100, 100⟩ 50 (-30)).1.x - 100 ∧
        d.2 = (Server.cmd_move_xy ⟨100, 100⟩ 50 (-30)).1.y - 100) ∧
      ((0 ≤ (100:ℚ) + 50 ∧ (100:ℚ) + 50 ≤ GANTRY_MAX_X_MM ∧
        0 ≤ (100:ℚ) + -30 ∧ (100:ℚ) + -30 ≤ GANTRY_MAX_Y_MM) →
        (Server.cmd_move_xy ⟨100, 100⟩ 50 (-30)).1.x - 100 = 50 ∧
        (Server.cmd_move_xy ⟨100, 100⟩ 50 (-30)).1.y - 100 = -30)) :=
  ⟨by norm_num [GANTRY_MAX_X_MM],
    C1_cmd_move_xy_clamps 100 100 50 (-30)
      (by norm_num) (by norm_num [GANTRY_MAX_X_MM])
      (by norm_num) (by norm_num [GANTRY_MAX_Y_MM])⟩

/-! ## Plant debouncer (`scan_water.py`, `PlantDebouncer`) -/

/-- `ON_HITS` from `scan_water.py`. -/
def ON_HITS : Nat := 3

/-- `OFF_MISSES` from `scan_water.py`. -/
def OFF_MISSES : Nat := 6

/-- `COOLDOWN_S` from `scan_water.py` (1.5 seconds). -/
def COOLDOWN_S : ℚ := 3/2

/-- The `PlantDebouncer` state (`scan_water.py`, lines 205-214): debounced
on/off state, consecutive hit/miss counters, and the time of the last
trigger. -/
structure Debouncer where
  state_on : Bool
  hit_count : Nat
  miss_count : Nat
  last_trigger : ℚ
deriving Repr, DecidableEq

/-- A freshly constructed `PlantDebouncer()`; `last_trigger` is 0.0 in the
source, here kept as a parameter so "more than `COOLDOWN_S` in the past"
can be stated relative to the observation times. -/
def Debouncer.fresh (t0 : ℚ) : Debouncer := ⟨false, 0, 0, t0⟩

/-- The trigger / reset half of `PlantDebouncer.update` (`scan_water.py`,
lines 228-240), applied to the state `d1` obtained after the hit/miss
counters were updated: fire the OFF→ON edge when enough hits have
accumulated and the cooldown has elapsed, silently reset ON→OFF after
enough misses, otherwise leave the state alone. -/
def Debouncer.resolve (d1 : Debouncer) (now : ℚ) : Debouncer × Bool :=
  if d1.state_on = false ∧ ON_HITS ≤ d1.hit_count then
    if COOLDOWN_S ≤ now - d1.last_trigger then
      ({ d1 with state_on := true, last_trigger := now }, true)
    else
      -- cooldown not yet elapsed: fall through; the ON→OFF reset below
      -- cannot fire here since state_on is false
      (d1, false)
  else if d1.state_on = true ∧ OFF_MISSES ≤ d1.miss_count then
    ({ d1 with state_on := false }, false)
  else
    (d1, false)

/-- Embedding of `PlantDebouncer.update` (`scan_water.py`, lines 216-240):
update the consecutive hit/miss counters from the current observation, then
resolve the trigger / reset conditions. `now` is the value `time.time()`
would return at this call. Returns the updated state and whether a
"new plant" event fired. -/
def Debouncer.update (d : Debouncer) (plant_present : Bool) (now : ℚ) :
    Debouncer × Bool :=
  if plant_present then
    Debouncer.resolve { d with hit_count := d.hit_count + 1, miss_count := 0 } now
  else
    Debouncer.resolve { d with hit_count := 0, miss_count := d.miss_count + 1 } now

/-- `resolve` is the identity (and fires no event) on an off state that has
not yet accumulated `ON_HITS` hits. -/
theorem Debouncer.resolve_off_low (d1 : Debouncer) (now : ℚ)
    (hOff : d1.state_on = false) (hk : d1.hit_count < ON_HITS) :
    d1.resolve now = (d1, false) := by
  rw [Debouncer.resolve, if_neg (fun h => absurd h.2 (not_le.mpr hk)),
    if_neg (fun h => by simp [hOff] at h)]

/-- `resolve` is the identity (and fires no event) on an on state that has
not yet accumulated `OFF_MISSES` misses. -/
theorem Debouncer.resolve_on_low (d1 : Debouncer) (now : ℚ)
    (hOn : d1.state_on = true) (hk : d1.miss_count < OFF_MISSES) :
    d1.resolve now = (d1, false) := by
  rw [Debouncer.resolve,
    if_neg (fun h => by simp [hOn] at h),
    if_neg (fun h => absurd h.2 (not_le.mpr hk))]

/-- Feed a list of observations (detection flag, observation time) through
the debouncer, collecting the final state and the list of returned events. -/
def Debouncer.runObs : Debouncer → List (Bool × ℚ) → Debouncer × List Bool
  | d, [] => (d, [])
  | d, (b, t) :: rest =>
    let step := d.update b t
    let tail := step.1.runObs rest
    (tail.1, step.2 :: tail.2)

/-- `runBounded k target cur l` is `true` when, starting from a current run
of `cur` consecutive `target` observations, no run of consecutive `target`
values in `l` ever reaches length `k`. -/
def runBounded (k : Nat) (target : Bool) : Nat → List Bool → Bool
  | _, [] => true
  | cur, b :: rest =>
    if b = target then
      if k ≤ cur + 1 then false else runBounded k target (cur + 1) rest
    else
      runBounded k target 0 rest

/-- Splitting a `runObs` over an appended observation list. -/
theorem Debouncer.runObs_append (l1 : List (Bool × ℚ)) (d : Debouncer)
    (l2 : List (Bool × ℚ)) :
    d.runObs (l1 ++ l2)
      = (((d.runObs l1).1.runObs l2).1,
          (d.runObs l1).2 ++ ((d.runObs l1).1.runObs l2).2) := by
  induction l1 generalizing d with
  | nil => simp [Debouncer.runObs]
  | cons hd tl ih =>
    obtain ⟨b, t⟩ := hd
    simp only [List.cons_append, Debouncer.runObs, List.append_eq]
    rw [ih]

/-- While the debounced state is off, as long as no run of consecutive
detections reaches `ON_HITS` (counting a possibly in-progress trailing run
of length `hit_count`), no event ever fires. -/
theorem Debouncer.no_event_while_off (obs : List (Bool × ℚ)) :
    ∀ d : Debouncer, d.state_on = false →
      runBounded ON_HITS true d.hit_count (obs.map Prod.fst) = true →
      ∀ b ∈ (d.runObs obs).2, b = false := by
  induction obs with
  | nil => intro d _ _ b hb; simp [Debouncer.runObs] at hb
  | cons hd tl ih =>
    intro d hOff hBound b hb
    obtain ⟨o, t⟩ := hd
    simp only [List.map_cons, runBounded] at hBound
    simp only [Debouncer.runObs, List.mem_cons] at hb
    cases o with
    | true =>
      rw [if_pos rfl] at hBound
      by_cases hk : ON_HITS ≤ d.hit_count + 1
      · rw [if_pos hk] at hBound; exact absurd hBound (by simp)
      · rw [if_neg hk] at hBound
        have hupd : d.update true t
            = ({ d with hit_count := d.hit_count + 1, miss_count := 0 },
                false) := by
          rw [Debouncer.update, if_pos rfl]
          exact Debouncer.resolve_off_low _ _ hOff (not_le.mp hk)
        rw [hupd] at hb
        rcases hb with hb | hb
        · simpa using hb
        · refine ih _ ?_ ?_ b hb
          · exact hOff
          · simpa using hBound
    | false =>
      rw [if_neg (by simp)] at hBound
      have hupd : d.update false t
          = ({ d with hit_count := 0, miss_count := d.miss_count + 1 },
              false) := by
        rw [Debouncer.update, if_neg (by simp)]
        exact Debouncer.resolve_off_low _ _ hOff (by simp [ON_HITS])
      rw [hupd] at hb
      rcases hb with hb | hb
      · simpa using hb
      · refine ih _ ?_ ?_ b hb
        · exact hOff
        · simpa using hBound

/-- While the debounced state is on, as long as no run of consecutive
misses reaches `OFF_MISSES` (counting a possibly in-progress trailing run
of length `miss_count`), the state stays on and no event ever fires. -/
theorem Debouncer.no_event_while_on (obs : List (Bool × ℚ)) :
    ∀ d : Debouncer, d.state_on = true →
      runBounded OFF_MISSES false d.miss_count (obs.map Prod.fst) = true →
      ∀ b ∈ (d.runObs obs).2, b = false := by
  induction obs with
  | nil => intro d _ _ b hb; simp [Debouncer.runObs] at hb
  | cons hd tl ih =>
    intro d hOn hBound b hb
    obtain ⟨o, t⟩ := hd
    simp only [List.map_cons, runBounded] at hBound
    simp only [Debouncer.runObs, List.mem_cons] at hb
    cases o with
    | true =>
      rw [if_neg (by simp)] at hBound
      have hupd : d.update true t
          = ({ d with hit_count := d.hit_count + 1, miss_count := 0 },
              false) := by
        rw [Debouncer.update, if_pos rfl]
        exact Debouncer.resolve_on_low _ _ hOn (by simp [OFF_MISSES])
      rw [hupd] at hb
      rcases hb with hb | hb
      · simpa using hb
      · refine ih _ ?_ ?_ b hb
        · exact hOn
        · simpa using hBound
    | false =>
      rw [if_pos rfl] at hBound
      by_cases hk : OFF_MISSES ≤ d.miss_count + 1
      · rw [if_pos hk] at hBound; exact absurd hBound (by simp)
      · rw [if_neg hk] at hBound
        have hupd : d.update false t
            = ({ d with hit_count := 0, miss_count := d.miss_count + 1 },
                false) := by
          rw [Debouncer.update, if_neg (by simp)]
          exact Debouncer.resolve_on_low _ _ hOn (not_le.mp hk)
        rw [hupd] at hb
        rcases hb with hb | hb
        · simpa using hb
        · refine ih _ ?_ ?_ b hb
          · exact hOn
          · simpa using hBound

/-- The first three consecutive detections fed to a fresh debouncer, with
the last-trigger time at least `COOLDOWN_S` before the third observation:
the event fires exactly on the third, leaving state ON with the cooldown
timer updated. -/
theorem Debouncer.three_hits_fire (t0 t1 t2 t3 : ℚ)
    (hcool : t0 + COOLDOWN_S ≤ t3) :
    (Debouncer.fresh t0).runObs [(true, t1), (true, t2), (true, t3)]
      = (⟨true, 3, 0, t3⟩, [false, false, true]) := by
  have h1 : (Debouncer.fresh t0).update true t1
      = ((⟨false, 1, 0, t0⟩ : Debouncer), false) := by
    rw [Debouncer.update, if_pos rfl]
    exact Debouncer.resolve_off_low _ _ rfl (by norm_num [ON_HITS, Debouncer.fresh])
  have h2 : (Debouncer.mk false 1 0 t0).update true t2
      = ((⟨false, 2, 0, t0⟩ : Debouncer), false) := by
    rw [Debouncer.update, if_pos rfl]
    exact Debouncer.resolve_off_low _ _ rfl (by norm_num [ON_HITS])
  have h3 : (Debouncer.mk false 2 0 t0).update true t3
      = ((⟨true, 3, 0, t3⟩ : Debouncer), true) := by
    rw [Debouncer.update, if_pos rfl, Debouncer.resolve,
      if_pos ⟨rfl, by norm_num [ON_HITS]⟩,
      if_pos (by simp only; linarith)]
  simp only [Debouncer.runObs, h1, h2, h3]

/-- C2: starting from a fresh `PlantDebouncer` whose last trigger lies more
than `COOLDOWN_S` in the past, (i) three consecutive true observations make
`update` return `True` exactly once, on the third; (ii) any observation
sequence in which no run of consecutive true observations reaches
`ON_HITS` produces no `True` at all; and (iii) after the first trigger, any
continuation whose runs of consecutive misses all stay under `OFF_MISSES`
— in particular a miss-then-hit cycle that reaches the hit threshold again
within `COOLDOWN_S` of the trigger — produces no additional `True`, so the
whole sequence yields exactly one event. -/
theorem C2_debouncer_edge_events (t0 t1 t2 t3 : ℚ)
    (obs obs2 : List (Bool × ℚ))
    (hcool : t0 + COOLDOWN_S ≤ t3)
    (hfew : runBounded ON_HITS true 0 (obs.map Prod.fst) = true)
    (hmiss : runBounded OFF_MISSES false 0 (obs2.map Prod.fst) = true) :
    ((Debouncer.fresh t0).runObs [(true, t1), (true, t2), (true, t3)]).2
        = [false, false, true] ∧
    (∀ b ∈ ((Debouncer.fresh t0).runObs obs).2, b = false) ∧
    (((Debouncer.fresh t0).runObs
        ([(true, t1), (true, t2), (true, t3)] ++ obs2)).2).count true = 1 := by
  refine ⟨?_, ?_, ?_⟩
  · rw [Debouncer.three_hits_fire t0 t1 t2 t3 hcool]
  · exact Debouncer.no_event_while_off obs _ rfl hfew
  · rw [Debouncer.runObs_append, Debouncer.three_hits_fire t0 t1 t2 t3 hcool]
    have hall : ∀ b ∈ ((Debouncer.mk true 3 0 t3).runObs obs2).2, b = false :=
      Debouncer.no_event_while_on obs2 _ rfl hmiss
    have hz : (((Debouncer.mk true 3 0 t3).runObs obs2).2).count true = 0 := by
      rw [List.count_eq_zero]
      intro hmem
      exact absurd (hall true hmem) (by simp)
    simp [List.count_append, hz]

/-- Witness for C2: fresh debouncer with last trigger at time 0,
observations at times 10, 11, 12; part (ii) at a sequence
true-true-false-true-true (no run of 3 trues); part (iii) continuing with
one miss then three hits at times 12.1 to 12.4 — within the 1.5 s cooldown
of the trigger at time 12 — which yields exactly one event overall. -/
theorem C2_witness :
    ((0:ℚ) + COOLDOWN_S ≤ 12 ∧
      runBounded ON_HITS true 0
        ([(true, (10:ℚ)), (true, 11), (false, 23/2), (true, 12), (true, 13)].map
          Prod.fst) = true ∧
      runBounded OFF_MISSES false 0
        ([(false, (121/10:ℚ)), (true, 61/5), (true, 123/10), (true, 62/5)].map
          Prod.fst) = true) ∧
    (((Debouncer.fresh 0).runObs [(true, 10), (true, 11), (true, 12)]).2
        = [false, false, true] ∧
      (∀ b ∈ ((Debouncer.fresh 0).runObs
          [(true, (10:ℚ)), (true, 11), (false, 23/2), (true, 12), (true, 13)]).2,
        b = false) ∧
      (((Debouncer.fresh 0).runObs
          ([(true, 10), (true, 11), (true, 12)] ++
            [(false, (121/10:ℚ)), (true, 61/5), (true, 123/10), (true, 62/5)])).2).count
          true = 1) :=
  ⟨⟨by norm_num [COOLDOWN_S], by decide, by decide⟩,
    C2_debouncer_edge_events 0 10 11 12
      [(true, 10), (true, 11), (false, 23/2), (true, 12), (true, 13)]
      [(false, 121/10), (true, 61/5), (true, 123/10), (true, 62/5)]
      (by norm_num [COOLDOWN_S]) (by decide) (by decide)⟩

/-! ## Serial reply waiting (`scan_water.py`, `wait_for`) -/

/-- Python's `str.startswith`, modelled on the strings' character lists
(so that it evaluates inside the kernel). -/
def strStartsWith (s pat : String) : Bool :=
  pat.toList.isPrefixOf s.toList

/-- A line the ESP reports as an error/fault (`scan_water.py`, line 146). -/
def isFaultLine (ln : String) : Bool :=
  strStartsWith ln "ERR" || strStartsWith ln "FAULT"

/-- The message of the `RuntimeError` raised by `wait_for` on a fault line
(`scan_water.py`, line 147). -/
def faultMsg (ln label : String) : String :=
  "[ESP ERROR] " ++ ln ++ " while waiting for " ++ label

/-- Embedding of `wait_for` (`scan_water.py`, lines 134-154) over the
finite sequence of lines that arrive before the timeout expires, in
arrival order. `.error msg` models the raised `RuntimeError` (remote
fault), `.ok (some ln)` the matching line returned, and `.ok none` the
raised `TimeoutError` when the line budget is exhausted. For each line the
fault check is performed before the predicate. -/
def wait_for (pred : String → Bool) (label : String) :
    List String → Except String (Option String)
  | [] => .ok none
  | ln :: rest =>
    if isFaultLine ln then .error (faultMsg ln label)
    else if pred ln then .ok (some ln)
    else wait_for pred label rest

/-! ## Raster scan (`scan_water.py`, `run_scan`)

The loop of `run_scan` is embedded with the grid dimensions as parameters
(the source fixes them by the module constants `ROWS = COLS = 5`), and the
external world — the cancellation event, the per-cell detection outcome,
and faults raised by the serial move/pump commands — as an explicit
environment consulted at exactly the program points where the Python code
consults it.  The environment's functions are indexed by the value of
`cells_scanned` at the moment of the query, which identifies the cell
uniquely since `cells_scanned` increases by one per cell. -/

/-- `STEP_X_MM` from `scan_water.py`. -/
def STEP_X_MM : ℚ := 75

/-- `STEP_Y_MM` from `scan_water.py`. -/
def STEP_Y_MM : ℚ := 75

/-- `ROWS` from `scan_water.py`. -/
def ROWS : Nat := 5

/-- `COLS` from `scan_water.py`. -/
def COLS : Nat := 5

/-- The column visiting order for row `r` (`scan_water.py`, lines 336-341):
left-to-right on even rows, right-to-left on odd rows. -/
def rowCells (cols r : Nat) : List Nat :=
  if r % 2 = 0 then List.range cols else (List.range cols).reverse

/-- The X step used within row `r`: `+STEP_X_MM` on even rows,
`-STEP_X_MM` on odd rows. -/
def rowXStep (r : Nat) : ℚ :=
  if r % 2 = 0 then STEP_X_MM else -STEP_X_MM

/-- The move issued before dwelling on the cell at position `ci` of row `r`
(`scan_water.py`, lines 348-352): none for the very first cell of the scan,
an X step within a row, a single `+STEP_Y_MM` step at a row transition. -/
def cellMove (r ci : Nat) (xstep : ℚ) : Option (ℚ × ℚ) :=
  if r = 0 ∧ ci = 0 then none
  else if 0 < ci then some (xstep, 0)
  else some (0, STEP_Y_MM)

/-- The external world a scan interacts with, indexed by the current value
of `cells_scanned`: `cancel j` is what `cancel_event.is_set()` returns when
queried with `j` cells scanned; `detect j` is whether
`detect_plant_for_duration` reports a debounced plant at cell `j`;
`moveFault j` (resp. `pumpFault j`) is the message of the
`TimeoutError`/`RuntimeError` raised by the move preceding cell `j` (resp.
the watering at cell `j`), or `none` when the command completes. -/
structure ScanEnv where
  cancel : Nat → Bool
  detect : Nat → Bool
  moveFault : Nat → Option String
  pumpFault : Nat → Option String

/-- The mutable locals of `run_scan`, plus a trace of the visited cells:
each entry records `(row, col, move)` where `move` is the delta passed to
`cmd_move_xy` on the way to that cell (`none` for the very first cell). -/
structure ScanState where
  cells : Nat
  plants : Nat
  trace : List (Nat × Nat × Option (ℚ × ℚ))

/-- How the traversal loop of `run_scan` was left: exited by the
cooperative cancellation flag, or aborted by a raised fault/timeout. -/
inductive ScanExit where
  | cancelledE : ScanExit
  | errorE : String → ScanExit
deriving Repr, DecidableEq

/-- The inner (per-cell) loop of `run_scan` (`scan_water.py`, lines
343-364) over the remaining enumerated cells `(ci, c)` of row `r`: check
the cancel flag, issue the move (which may raise), count the cell, dwell
and detect, and water on a detection (the pump may raise). -/
def runCells (env : ScanEnv) (r : Nat) (xstep : ℚ) :
    List (Nat × Nat) → ScanState → ScanState × Option ScanExit
  | [], st => (st, none)
  | (ci, c) :: rest, st =>
    if env.cancel st.cells then (st, some .cancelledE)
    else
      match (if r = 0 ∧ ci = 0 then none else env.moveFault st.cells) with
      | some msg => (st, some (.errorE msg))
      | none =>
        let st1 : ScanState :=
          ⟨st.cells + 1, st.plants, st.trace ++ [(r, c, cellMove r ci xstep)]⟩
        if env.detect st.cells then
          match env.pumpFault st.cells with
          | some msg => ({ st1 with plants := st1.plants + 1 }, some (.errorE msg))
          | none => runCells env r xstep rest { st1 with plants := st1.plants + 1 }
        else
          runCells env r xstep rest st1

/-- The outer (per-row) loop of `run_scan` (`scan_water.py`, lines
331-367): check the cancel flag at each row start, then run the row's
cells; a cancellation or error inside a row ends the traversal. -/
def runRows (env : ScanEnv) (cols : Nat) :
    List Nat → ScanState → ScanState × Option ScanExit
  | [], st => (st, none)
  | r :: rest, st =>
    if env.cancel st.cells then (st, some .cancelledE)
    else
      match runCells env r (rowXStep r) (rowCells cols r).enum st with
      | (st', some e) => (st', some e)
      | (st', none) => runRows env cols rest st'

/-- The full traversal of `run_scan` over a `rows × cols` grid, from a
fresh state. -/
def runScanLoop (env : ScanEnv) (rows cols : Nat) :
    ScanState × Option ScanExit :=
  runRows env cols (List.range rows) ⟨0, 0, []⟩

/-- The dict returned by `run_scan` (`scan_water.py`, lines 374-388). -/
structure ScanResult where
  cells_scanned : Nat
  plants_found : Nat
  cancelled : Bool
  error : Option String
deriving Repr, DecidableEq

/-- Embedding of `run_scan` (`scan_water.py`, lines 295-391) on the
configured `ROWS × COLS` grid: a clean exit or a cancellation returns with
`error = None`, a raised `TimeoutError`/`RuntimeError` is caught and
returned as `error = str(e)` with `cancelled = False`. -/
def run_scan (env : ScanEnv) : ScanResult :=
  match runScanLoop env ROWS COLS with
  | (st, none) => ⟨st.cells, st.plants, false, none⟩
  | (st, some .cancelledE) => ⟨st.cells, st.plants, true, none⟩
  | (st, some (.errorE msg)) => ⟨st.cells, st.plants, false, some msg⟩

/-- The decision taken by the caller `execute_scan` (`server.py`, lines
377-390, identical in `execute_scheduled_scan`, lines 424-437): a
`watered_log` entry for the current date is written exactly when the
result carries no error and was not cancelled. -/
def callerWritesLog (res : ScanResult) : Bool :=
  res.error.isNone && !res.cancelled

/-- The environment behaves normally while fewer than `stop` cells have
been scanned: the cancel flag reads unset and no serial command faults. -/
def cleanBelow (env : ScanEnv) (stop : Nat) : Prop :=
  ∀ j, j < stop →
    env.cancel j = false ∧ env.moveFault j = none ∧ env.pumpFault j = none

/-- The trace contributed by row `r`: its cells in visiting order, each
with the move that reaches it. -/
def rowTrace (cols r : Nat) : List (Nat × Nat × Option (ℚ × ℚ)) :=
  (rowCells cols r).enum.map (fun q => (r, q.2, cellMove r q.1 (rowXStep r)))

/-- The first component of the `i`-th entry of `List.enumFrom n l` is `n + i`. -/
theorem enumFrom_get_fst {α : Type} (l : List α) :
    ∀ (n i : Nat) (h : i < (List.enumFrom n l).length),
      ((List.enumFrom n l).get ⟨i, h⟩).1 = n + i := by
  induction l with
  | nil => intro n i h; simp [List.enumFrom] at h
  | cons a tl ih =>
    intro n i h
    cases i with
    | zero => rfl
    | succ i =>
      have := ih (n + 1) i (by simpa [List.enumFrom] using h)
      simpa [List.enumFrom, Nat.add_assoc, Nat.add_comm 1 i] using this

/-- Each row visits exactly `cols` cells. -/
theorem rowCells_length (cols r : Nat) : (rowCells cols r).length = cols := by
  unfold rowCells
  split <;> simp

/-- A cell loop over an interval on which the environment is clean runs to
the end of the row: it scans one cell per list entry, appends the row's
cells and moves to the trace, and exits normally. -/
theorem runCells_clean (env : ScanEnv) (stop : Nat)
    (hclean : cleanBelow env stop) (r : Nat) (xstep : ℚ) :
    ∀ (l : List (Nat × Nat)) (st : ScanState),
      st.cells + l.length ≤ stop →
      ∃ p, runCells env r xstep l st
        = (⟨st.cells + l.length, p,
            st.trace ++ l.map (fun q => (r, q.2, cellMove r q.1 xstep))⟩, none) := by
  intro l
  induction l with
  | nil =>
    intro st _
    exact ⟨st.plants, by simp [runCells]⟩
  | cons hd rest ih =>
    intro st hle
    obtain ⟨ci, c⟩ := hd
    have hlt : st.cells < stop := by
      have := hle; simp only [List.length_cons] at this; omega
    have hcan : env.cancel st.cells = false := (hclean _ hlt).1
    have hmv : (if r = 0 ∧ ci = 0 then none else env.moveFault st.cells)
        = (none : Option String) := by
      split
      · rfl
      · exact (hclean _ hlt).2.1
    have hpump : env.pumpFault st.cells = none := (hclean _ hlt).2.2
    rw [runCells, hcan]
    simp only [Bool.false_eq_true, if_false, hmv]
    by_cases hdet : env.detect st.cells = true
    · rw [hdet]
      simp only [if_true, hpump]
      obtain ⟨p, hp⟩ := ih
        ⟨st.cells + 1, st.plants + 1, st.trace ++ [(r, c, cellMove r ci xstep)]⟩
        (by simp only [List.length_cons] at hle ⊢; omega)
      refine ⟨p, ?_⟩
      rw [hp]
      simp only [List.length_cons, List.map_cons, List.append_assoc,
        List.singleton_append]
      congr 2
      omega
    · rw [Bool.not_eq_true] at hdet
      rw [hdet]
      simp only [Bool.false_eq_true, if_false]
      obtain ⟨p, hp⟩ := ih
        ⟨st.cells + 1, st.plants, st.trace ++ [(r, c, cellMove r ci xstep)]⟩
        (by simp only [List.length_cons] at hle ⊢; omega)
      refine ⟨p, ?_⟩
      rw [hp]
      simp only [List.length_cons, List.map_cons, List.append_assoc,
        List.singleton_append]
      congr 2
      omega

/-- If the cancel flag becomes observable once `stop` cells are scanned and
the row still has cells left at that point, the cell loop exits at the
cancel check of the next cell, with exactly `stop` cells scanned. -/
theorem runCells_cancelStop (env : ScanEnv) (stop : Nat)
    (hclean : cleanBelow env stop) (hstop : env.cancel stop = true)
    (r : Nat) (xstep : ℚ) :
    ∀ (l : List (Nat × Nat)) (st : ScanState),
      st.cells ≤ stop → stop < st.cells + l.length →
      (runCells env r xstep l st).2 = some .cancelledE ∧
        (runCells env r xstep l st).1.cells = stop := by
  intro l
  induction l with
  | nil => intro st h1 h2; simp at h2; omega
  | cons hd rest ih =>
    intro st h1 h2
    obtain ⟨ci, c⟩ := hd
    by_cases heq : st.cells = stop
    · rw [runCells, heq, hstop]
      simp [heq]
    · have hlt : st.cells < stop := by omega
      have hcan : env.cancel st.cells = false := (hclean _ hlt).1
      have hmv : (if r = 0 ∧ ci = 0 then none else env.moveFault st.cells)
          = (none : Option String) := by
        split
        · rfl
        · exact (hclean _ hlt).2.1
      have hpump : env.pumpFault st.cells = none := (hclean _ hlt).2.2
      rw [runCells, hcan]
      simp only [Bool.false_eq_true, if_false, hmv]
      by_cases hdet : env.detect st.cells = true
      · rw [hdet]
        simp only [if_true, hpump]
        exact ih _ (by simp; omega) (by simp at h2 ⊢; omega)
      · rw [Bool.not_eq_true] at hdet
        rw [hdet]
        simp only [Bool.false_eq_true, if_false]
        exact ih _ (by simp; omega) (by simp at h2 ⊢; omega)

/-- If the cancel flag becomes observable once `stop` cells are scanned and
the traversal still has cells left at that point, the row loop exits at a
row- or cell-boundary cancel check with exactly `stop` cells scanned. -/
theorem runRows_cancelStop (env : ScanEnv) (stop cols : Nat)
    (hclean : cleanBelow env stop) (hstop : env.cancel stop = true) :
    ∀ (rl : List Nat) (st : ScanState),
      st.cells ≤ stop → stop < st.cells + rl.length * cols →
      (runRows env cols rl st).2 = some .cancelledE ∧
        (runRows env cols rl st).1.cells = stop := by
  intro rl
  induction rl with
  | nil => intro st h1 h2; simp at h2; omega
  | cons r rest ih =>
    intro st h1 h2
    by_cases heq : st.cells = stop
    · rw [runRows, heq, hstop]
      simp [heq]
    · have hlt : st.cells < stop := by omega
      have hcan : env.cancel st.cells = false := (hclean _ hlt).1
      rw [runRows, hcan]
      simp only [Bool.false_eq_true, if_false]
      have hlen : ((rowCells cols r).enum).length = cols := by
        rw [List.enum_length, rowCells_length]
      by_cases hrow : stop < st.cells + cols
      · have hc := runCells_cancelStop env stop hclean hstop r (rowXStep r)
          ((rowCells cols r).enum) st h1 (by rw [hlen]; exact hrow)
        rcases hcell : runCells env r (rowXStep r) ((rowCells cols r).enum) st
          with ⟨st', e⟩
        rw [hcell] at hc
        obtain ⟨he, hcells⟩ := hc
        simp only at he hcells
        rw [he]
        exact ⟨rfl, hcells⟩
      · push_neg at hrow
        obtain ⟨p, hp⟩ := runCells_clean env stop hclean r (rowXStep r)
          ((rowCells cols r).enum) st (by rw [hlen]; exact hrow)
        rw [hp]
        refine ih _ (by simp [hlen]; omega) ?_
        simp only [hlen, List.length_cons] at h2 ⊢
        have : st.cells + (rest.length + 1) * cols
            = st.cells + cols + rest.length * cols := by ring
        omega

/-- A row loop over an interval on which the environment is clean visits
every remaining row to the end: `cols` cells per row, appending each row's
trace, and exits normally. -/
theorem runRows_clean (env : ScanEnv) (stop cols : Nat) (hcols : 0 < cols)
    (hclean : cleanBelow env stop) :
    ∀ (rl : List Nat) (st : ScanState),
      st.cells + rl.length * cols ≤ stop →
      ∃ p, runRows env cols rl st
        = (⟨st.cells + rl.length * cols, p,
            st.trace ++ rl.flatMap (fun r => rowTrace cols r)⟩, none) := by
  intro rl
  induction rl with
  | nil => intro st _; exact ⟨st.plants, by simp [runRows]⟩
  | cons r rest ih =>
    intro st hle
    have hexp : (rest.length + 1) * cols = rest.length * cols + cols := by ring
    have hlt : st.cells < stop := by
      simp only [List.length_cons] at hle; omega
    have hcan : env.cancel st.cells = false := (hclean _ hlt).1
    rw [runRows, hcan]
    simp only [Bool.false_eq_true, if_false]
    have hlen : ((rowCells cols r).enum).length = cols := by
      rw [List.enum_length, rowCells_length]
    obtain ⟨p1, hp1⟩ := runCells_clean env stop hclean r (rowXStep r)
      ((rowCells cols r).enum) st
      (by rw [hlen]; simp only [List.length_cons] at hle; omega)
    rw [hp1]
    obtain ⟨p2, hp2⟩ := ih
      ⟨st.cells + ((rowCells cols r).enum).length, p1,
        st.trace ++ ((rowCells cols r).enum).map
          (fun q => (r, q.2, cellMove r q.1 (rowXStep r)))⟩
      (by simp only [hlen, List.length_cons] at hle ⊢; omega)
    refine ⟨p2, ?_⟩
    show runRows env cols rest
      ⟨st.cells + ((rowCells cols r).enum).length, p1,
        st.trace ++ ((rowCells cols r).enum).map
          (fun q => (r, q.2, cellMove r q.1 (rowXStep r)))⟩ = _
    rw [hp2]
    have harith : st.cells + cols + rest.length * cols
        = st.cells + (rest.length + 1) * cols := by ring
    simp only [hlen, List.length_cons, List.flatMap_cons, rowTrace,
      List.append_assoc, harith]

/-- The cells of row `r` are visited exactly in the order of `rowCells`:
left-to-right on even rows, right-to-left on odd rows. -/
theorem rowTrace_cells (cols r : Nat) :
    (rowTrace cols r).map (fun q => q.2.1) = rowCells cols r := by
  unfold rowTrace
  rw [List.map_map]
  have h : ((fun q : Nat × Nat × Option (ℚ × ℚ) => q.2.1) ∘
      (fun q : Nat × Nat => (r, q.2, cellMove r q.1 (rowXStep r))))
      = Prod.snd := rfl
  rw [h, List.enum_map_snd]

/-- The moves of row `r` in the trace: the row is entered by no move when
it is row 0 and by a single `+STEP_Y_MM` Y move otherwise, and each of its
`cols - 1` remaining cells is reached by one X move of `rowXStep r`
(`+STEP_X_MM` on even rows, `-STEP_X_MM` on odd rows). -/
theorem rowTrace_moves (cols r : Nat) (hc : 0 < cols) :
    (rowTrace cols r).map (fun q => q.2.2)
      = (if r = 0 then none else some ((0:ℚ), STEP_Y_MM))
          :: List.replicate (cols - 1) (some (rowXStep r, (0:ℚ))) := by
  unfold rowTrace
  rw [List.map_map]
  have h : ((fun q : Nat × Nat × Option (ℚ × ℚ) => q.2.2) ∘
      (fun q : Nat × Nat => (r, q.2, cellMove r q.1 (rowXStep r))))
      = ((fun ci => cellMove r ci (rowXStep r)) ∘ Prod.fst) := rfl
  rw [h, ← List.map_map, List.enum_map_fst, rowCells_length]
  obtain ⟨k, rfl⟩ : ∃ k, cols = k + 1 := ⟨cols - 1, by omega⟩
  rw [List.range_succ_eq_map, List.map_cons, List.map_map]
  have hhead : cellMove r 0 (rowXStep r)
      = if r = 0 then none else some ((0:ℚ), STEP_Y_MM) := by
    unfold cellMove
    by_cases hr : r = 0 <;> simp [hr]
  have htail : (List.range k).map
      ((fun ci => cellMove r ci (rowXStep r)) ∘ Nat.succ)
      = List.replicate k (some (rowXStep r, (0:ℚ))) := by
    have hcong : (List.range k).map
        ((fun ci => cellMove r ci (rowXStep r)) ∘ Nat.succ)
        = (List.range k).map (fun _ => some (rowXStep r, (0:ℚ))) := by
      refine List.map_congr_left ?_
      intro i _
      simp only [Function.comp_apply]
      unfold cellMove
      simp
    rw [hcong, List.map_const', List.length_range]
  rw [hhead, htail]
  simp

/-- C3: with a clean environment (no cancellation, no serial faults), on a
2 × 3 grid `run_scan`'s loop visits the cells in boustrophedon order
(0,0), (0,1), (0,2), (1,2), (1,1), (1,0), issuing no move for the first
cell, a `+STEP_X_MM` X move for each later cell of row 0, a single
`+STEP_Y_MM` Y move at the row transition, and a `-STEP_X_MM` X move for
each later cell of row 1; and in general, on any grid, every row's trace
consists of the row-entry move (none only for row 0) followed by one
`rowXStep` X move per remaining cell, even rows stepping `+STEP_X_MM` and
odd rows `-STEP_X_MM`, visiting the columns in `rowCells` order. -/
theorem C3_boustrophedon_order (detect : Nat → Bool) (cols r : Nat)
    (hc : 0 < cols) :
    ((runScanLoop ⟨fun _ => false, detect, fun _ => none, fun _ => none⟩
        2 3).1.trace
      = [(0, 0, none), (0, 1, some (STEP_X_MM, 0)), (0, 2, some (STEP_X_MM, 0)),
          (1, 2, some ((0:ℚ), STEP_Y_MM)), (1, 1, some (-STEP_X_MM, 0)),
          (1, 0, some (-STEP_X_MM, 0))] ∧
      (runScanLoop ⟨fun _ => false, detect, fun _ => none, fun _ => none⟩
        2 3).2 = none) ∧
    ((rowTrace cols r).map (fun q => q.2.1) = rowCells cols r ∧
      (rowTrace cols r).map (fun q => q.2.2)
        = (if r = 0 then none else some ((0:ℚ), STEP_Y_MM))
            :: List.replicate (cols - 1) (some (rowXStep r, (0:ℚ))) ∧
      rowXStep r = (if r % 2 = 0 then STEP_X_MM else -STEP_X_MM) ∧
      rowCells cols r
        = (if r % 2 = 0 then List.range cols else (List.range cols).reverse)) := by
  constructor
  · set env : ScanEnv := ⟨fun _ => false, detect, fun _ => none, fun _ => none⟩
      with henv
    have hclean : cleanBelow env 6 := by
      intro j _
      exact ⟨rfl, rfl, rfl⟩
    obtain ⟨p, hp⟩ := runRows_clean env 6 3 (by norm_num) hclean
      (List.range 2) ⟨0, 0, []⟩ (by simp)
    rw [runScanLoop] at *
    rw [hp]
    constructor
    · show ([] : List (Nat × Nat × Option (ℚ × ℚ)))
          ++ (List.range 2).flatMap (fun r => rowTrace 3 r) = _
      decide
    · rfl
  · exact ⟨rowTrace_cells cols r, rowTrace_moves cols r hc, rfl, rfl⟩

/-- Witness for C3: the concrete 2 × 3 trace, and the general per-row
characterization instantiated at `cols = 3`, `r = 1`. -/
theorem C3_witness :
    (0:Nat) < 3 ∧
    (((runScanLoop ⟨fun _ => false, fun _ => false, fun _ => none,
          fun _ => none⟩ 2 3).1.trace
        = [(0, 0, none), (0, 1, some (STEP_X_MM, 0)), (0, 2, some (STEP_X_MM, 0)),
            (1, 2, some ((0:ℚ), STEP_Y_MM)), (1, 1, some (-STEP_X_MM, 0)),
            (1, 0, some (-STEP_X_MM, 0))] ∧
        (runScanLoop ⟨fun _ => false, fun _ => false, fun _ => none,
          fun _ => none⟩ 2 3).2 = none) ∧
      ((rowTrace 3 1).map (fun q => q.2.1) = rowCells 3 1 ∧
        (rowTrace 3 1).map (fun q => q.2.2)
          = (if (1:Nat) = 0 then none else some ((0:ℚ), STEP_Y_MM))
              :: List.replicate (3 - 1) (some (rowXStep 1, (0:ℚ))) ∧
        rowXStep 1 = (if (1:Nat) % 2 = 0 then STEP_X_MM else -STEP_X_MM) ∧
        rowCells 3 1
          = (if (1:Nat) % 2 = 0 then List.range 3
              else (List.range 3).reverse))) :=
  ⟨by norm_num, C3_boustrophedon_order (fun _ => false) 3 1 (by norm_num)⟩

/-- C4: if the cancel event is set after `n` cells have been scanned and
before cell `n+1` begins (and there is a cell `n+1`, i.e.
`n < ROWS * COLS`), `run_scan` stops at the next row- or cell-boundary
check and returns `cancelled = true`, `cells_scanned = n`, `error = None`;
on this result the caller writes no `watered_log` entry. -/
theorem C4_cancel_mid_scan (n : Nat) (detect : Nat → Bool)
    (hn : n < ROWS * COLS) :
    (run_scan ⟨fun j => decide (n ≤ j), detect,
        fun _ => none, fun _ => none⟩).cancelled = true ∧
    (run_scan ⟨fun j => decide (n ≤ j), detect,
        fun _ => none, fun _ => none⟩).cells_scanned = n ∧
    (run_scan ⟨fun j => decide (n ≤ j), detect,
        fun _ => none, fun _ => none⟩).error = none ∧
    callerWritesLog (run_scan ⟨fun j => decide (n ≤ j), detect,
        fun _ => none, fun _ => none⟩) = false := by
  set env : ScanEnv :=
    ⟨fun j => decide (n ≤ j), detect, fun _ => none, fun _ => none⟩ with henv
  have hclean : cleanBelow env n := by
    intro j hj
    refine ⟨?_, rfl, rfl⟩
    simp [henv, Nat.not_le.mpr hj]
  have hstop : env.cancel n = true := by simp [henv]
  have h := runRows_cancelStop env n COLS hclean hstop
    (List.range ROWS) ⟨0, 0, []⟩ (Nat.zero_le n)
    (by simpa [List.length_range, Nat.mul_comm] using hn)
  rw [run_scan, runScanLoop]
  rcases hrun : runRows env COLS (List.range ROWS) ⟨0, 0, []⟩ with ⟨st, e⟩
  rw [hrun] at h
  obtain ⟨he, hcells⟩ := h
  simp only at he hcells
  subst he
  simp [callerWritesLog, hcells]

/-- Witness for C4 at `n = 7` with no plants detected. -/
theorem C4_witness :
    7 < ROWS * COLS ∧
    ((run_scan ⟨fun j => decide (7 ≤ j), fun _ => false,
        fun _ => none, fun _ => none⟩).cancelled = true ∧
      (run_scan ⟨fun j => decide (7 ≤ j), fun _ => false,
        fun _ => none, fun _ => none⟩).cells_scanned = 7 ∧
      (run_scan ⟨fun j => decide (7 ≤ j), fun _ => false,
        fun _ => none, fun _ => none⟩).error = none ∧
      callerWritesLog (run_scan ⟨fun j => decide (7 ≤ j), fun _ => false,
        fun _ => none, fun _ => none⟩) = false) :=
  ⟨by norm_num [ROWS, COLS],
    C4_cancel_mid_scan 7 (fun _ => false) (by norm_num [ROWS, COLS])⟩

/-- `wait_for` raises on the first fault line, regardless of whether the
predicate matches that line. -/
theorem wait_for_fault_preempts (pred : String → Bool) (label : String)
    (pre : List String) (ln : String) (post : List String)
    (hpre : ∀ l ∈ pre, isFaultLine l = false ∧ pred l = false)
    (hln : isFaultLine ln = true) :
    wait_for pred label (pre ++ ln :: post) = .error (faultMsg ln label) := by
  induction pre with
  | nil =>
    rw [List.nil_append, wait_for, hln]
    simp
  | cons a rest ih =>
    have ha := hpre a (by simp)
    rw [List.cons_append, wait_for, ha.1, ha.2]
    simp only [Bool.false_eq_true, if_false]
    exact ih (fun l hl => hpre l (List.mem_cons_of_mem a hl))

/-- If the move preceding the cell scanned `stop`-th (0-based) raises with
message `msg` while the environment is clean until then, the cell loop
exits with that error and exactly `stop` cells scanned.  The alignment
hypothesis states that in row 0 the remaining enumeration indices continue
the cell count, which rules the move-less very first cell out (as
`1 ≤ stop`). -/
theorem runCells_faultStop (env : ScanEnv) (stop : Nat) (msg : String)
    (hclean : cleanBelow env stop) (hcan : env.cancel stop = false)
    (hfault : env.moveFault stop = some msg) (hpos : 1 ≤ stop)
    (r : Nat) (xstep : ℚ) :
    ∀ (l : List (Nat × Nat)) (st : ScanState),
      (r = 0 → ∀ (i : Nat) (h : i < l.length), (l.get ⟨i, h⟩).1 = st.cells + i) →
      st.cells ≤ stop → stop < st.cells + l.length →
      (runCells env r xstep l st).2 = some (.errorE msg) ∧
        (runCells env r xstep l st).1.cells = stop := by
  intro l
  induction l with
  | nil => intro st _ h1 h2; simp at h2; omega
  | cons hd rest ih =>
    intro st hA h1 h2
    obtain ⟨ci, c⟩ := hd
    by_cases heq : st.cells = stop
    · have hnz : ¬(r = 0 ∧ ci = 0) := by
        rintro ⟨hr, hci⟩
        have h0 := hA hr 0 (by simp)
        simp only [List.get] at h0
        omega
      rw [runCells, heq, hcan]
      simp only [Bool.false_eq_true, if_false]
      rw [if_neg hnz, hfault]
      exact ⟨rfl, heq⟩
    · have hlt : st.cells < stop := by omega
      have hcan' : env.cancel st.cells = false := (hclean _ hlt).1
      have hmv : (if r = 0 ∧ ci = 0 then none else env.moveFault st.cells)
          = (none : Option String) := by
        split
        · rfl
        · exact (hclean _ hlt).2.1
      have hpump : env.pumpFault st.cells = none := (hclean _ hlt).2.2
      have hA' : r = 0 → ∀ (i : Nat) (h : i < rest.length),
          (rest.get ⟨i, h⟩).1 = (st.cells + 1) + i := by
        intro hr i h
        have hi := hA hr (i + 1) (by simpa using Nat.succ_lt_succ h)
        simp only [List.get] at hi
        rw [show st.cells + 1 + i = st.cells + (i + 1) from by omega]
        exact hi
      rw [runCells, hcan']
      simp only [Bool.false_eq_true, if_false, hmv]
      by_cases hdet : env.detect st.cells = true
      · rw [hdet]
        simp only [if_true, hpump]
        exact ih _ hA' (by simp; omega) (by simp at h2 ⊢; omega)
      · rw [Bool.not_eq_true] at hdet
        rw [hdet]
        simp only [Bool.false_eq_true, if_false]
        exact ih _ hA' (by simp; omega) (by simp at h2 ⊢; omega)

/-- Row-loop version of `runCells_faultStop` for a remaining row list that
does not contain row 0 (every cell of such rows is entered by a move): the
traversal exits with the error and exactly `stop` cells scanned. -/
theorem runRows_faultStop (env : ScanEnv) (stop cols : Nat) (msg : String)
    (hclean : cleanBelow env stop) (hcan : env.cancel stop = false)
    (hfault : env.moveFault stop = some msg) (hpos : 1 ≤ stop) :
    ∀ (rl : List Nat) (st : ScanState), (∀ r ∈ rl, r ≠ 0) →
      st.cells ≤ stop → stop < st.cells + rl.length * cols →
      (runRows env cols rl st).2 = some (.errorE msg) ∧
        (runRows env cols rl st).1.cells = stop := by
  intro rl
  induction rl with
  | nil => intro st _ h1 h2; simp at h2; omega
  | cons r rest ih =>
    intro st hr0 h1 h2
    have hrne : r ≠ 0 := hr0 r (by simp)
    have hcanrow : env.cancel st.cells = false := by
      by_cases heq : st.cells = stop
      · rw [heq]; exact hcan
      · exact (hclean _ (by omega)).1
    rw [runRows, hcanrow]
    simp only [Bool.false_eq_true, if_false]
    have hlen : ((rowCells cols r).enum).length = cols := by
      rw [List.enum_length, rowCells_length]
    by_cases hrow : stop < st.cells + cols
    · have hc := runCells_faultStop env stop msg hclean hcan hfault hpos
        r (rowXStep r) ((rowCells cols r).enum) st
        (fun h => absurd h hrne) h1 (by rw [hlen]; exact hrow)
      rcases hcell : runCells env r (rowXStep r) ((rowCells cols r).enum) st
        with ⟨st', e⟩
      rw [hcell] at hc
      obtain ⟨he, hcells⟩ := hc
      simp only at he hcells
      rw [he]
      exact ⟨rfl, hcells⟩
    · push_neg at hrow
      obtain ⟨p, hp⟩ := runCells_clean env stop hclean r (rowXStep r)
        ((rowCells cols r).enum) st (by rw [hlen]; exact hrow)
      rw [hp]
      refine ih _ (fun x hx => hr0 x (List.mem_cons_of_mem r hx))
        (by simp [hlen]; omega) ?_
      simp only [hlen, List.length_cons] at h2 ⊢
      have : st.cells + (rest.length + 1) * cols
          = st.cells + cols + rest.length * cols := by ring
      omega

/-- If the watering pump at the cell scanned `stop`-th (0-based, a cell
where a plant is detected) raises with message `msg` while the environment
is clean until then, the cell loop exits with that error; the failing cell
was already counted (`cells_scanned += 1` precedes the pump call), so
`stop + 1` cells are scanned. -/
theorem runCells_pumpStop (env : ScanEnv) (stop : Nat) (msg : String)
    (hclean : cleanBelow env stop) (hcan : env.cancel stop = false)
    (hmv : env.moveFault stop = none) (hdet : env.detect stop = true)
    (hpf : env.pumpFault stop = some msg) (r : Nat) (xstep : ℚ) :
    ∀ (l : List (Nat × Nat)) (st : ScanState),
      st.cells ≤ stop → stop < st.cells + l.length →
      (runCells env r xstep l st).2 = some (.errorE msg) ∧
        (runCells env r xstep l st).1.cells = stop + 1 := by
  intro l
  induction l with
  | nil => intro st h1 h2; simp at h2; omega
  | cons hd rest ih =>
    intro st h1 h2
    obtain ⟨ci, c⟩ := hd
    by_cases heq : st.cells = stop
    · have hmv2 : (if r = 0 ∧ ci = 0 then none else env.moveFault stop)
          = (none : Option String) := by
        split
        · rfl
        · exact hmv
      rw [runCells, heq, hcan]
      simp only [Bool.false_eq_true, if_false, hmv2]
      rw [hdet]
      simp only [if_true, hpf]
      exact ⟨trivial, by simp⟩
    · have hlt : st.cells < stop := by omega
      have hcan' : env.cancel st.cells = false := (hclean _ hlt).1
      have hmv' : (if r = 0 ∧ ci = 0 then none else env.moveFault st.cells)
          = (none : Option String) := by
        split
        · rfl
        · exact (hclean _ hlt).2.1
      have hpump : env.pumpFault st.cells = none := (hclean _ hlt).2.2
      rw [runCells, hcan']
      simp only [Bool.false_eq_true, if_false, hmv']
      by_cases hdet' : env.detect st.cells = true
      · rw [hdet']
        simp only [if_true, hpump]
        exact ih _ (by simp; omega) (by simp at h2 ⊢; omega)
      · rw [Bool.not_eq_true] at hdet'
        rw [hdet']
        simp only [Bool.false_eq_true, if_false]
        exact ih _ (by simp; omega) (by simp at h2 ⊢; omega)

/-- Row-loop version of `runCells_pumpStop`: the traversal exits with the
pump error and `stop + 1` cells scanned. -/
theorem runRows_pumpStop (env : ScanEnv) (stop cols : Nat) (msg : String)
    (hclean : cleanBelow env stop) (hcan : env.cancel stop = false)
    (hmv : env.moveFault stop = none) (hdet : env.detect stop = true)
    (hpf : env.pumpFault stop = some msg) :
    ∀ (rl : List Nat) (st : ScanState),
      st.cells ≤ stop → stop < st.cells + rl.length * cols →
      (runRows env cols rl st).2 = some (.errorE msg) ∧
        (runRows env cols rl st).1.cells = stop + 1 := by
  intro rl
  induction rl with
  | nil => intro st h1 h2; simp at h2; omega
  | cons r rest ih =>
    intro st h1 h2
    have hcanrow : env.cancel st.cells = false := by
      by_cases heq : st.cells = stop
      · rw [heq]; exact hcan
      · exact (hclean _ (by omega)).1
    rw [runRows, hcanrow]
    simp only [Bool.false_eq_true, if_false]
    have hlen : ((rowCells cols r).enum).length = cols := by
      rw [List.enum_length, rowCells_length]
    by_cases hrow : stop < st.cells + cols
    · have hc := runCells_pumpStop env stop msg hclean hcan hmv hdet hpf
        r (rowXStep r) ((rowCells cols r).enum) st h1
        (by rw [hlen]; exact hrow)
      rcases hcell : runCells env r (rowXStep r) ((rowCells cols r).enum) st
        with ⟨st', e⟩
      rw [hcell] at hc
      obtain ⟨he, hcells⟩ := hc
      simp only at he hcells
      rw [he]
      exact ⟨rfl, hcells⟩
    · push_neg at hrow
      obtain ⟨p, hp⟩ := runCells_clean env stop hclean r (rowXStep r)
        ((rowCells cols r).enum) st (by rw [hlen]; exact hrow)
      rw [hp]
      refine ih _ (by simp [hlen]; omega) ?_
      simp only [hlen, List.length_cons] at h2 ⊢
      have : st.cells + (rest.length + 1) * cols
          = st.cells + cols + rest.length * cols := by ring
      omega

/-- C5 scan part, move case: the environment in which every serial command
completes except the move into cell `k`, which raises with message `msg`. -/
def faultEnv (k : Nat) (msg : String) (detect : Nat → Bool) : ScanEnv :=
  ⟨fun _ => false, detect, fun j => if j = k then some msg else none,
    fun _ => none⟩

/-- C5 scan part, pump case: the environment in which every serial command
completes except the watering pump at cell `k`, which raises with message
`msg`. -/
def pumpFaultEnv (k : Nat) (msg : String) (detect : Nat → Bool) : ScanEnv :=
  ⟨fun _ => false, detect, fun _ => none,
    fun j => if j = k then some msg else none⟩

/-- C5: (i) `wait_for` raises the fault as soon as a fault line arrives,
before the predicate is consulted, so a fault preempts a predicate match;
(ii) a fault raised by the move into cell `k` (1 ≤ k < ROWS*COLS) aborts
the scan: `run_scan` returns with `error` set to the fault message,
`cancelled = false` and `cells_scanned = k`; (iii) a fault raised by the
watering pump at a detected cell `kp` likewise aborts the scan with
`error` set and `cancelled = false` (the failing cell was already
counted, so `cells_scanned = kp + 1`).  Both fault results are distinct
from the cancellation path (`cancelled = true`, no error) and from normal
completion (no error), and on both the caller writes no `watered_log`
entry. -/
theorem C5_fault_aborts (pred : String → Bool) (label : String)
    (pre : List String) (ln : String) (post : List String)
    (k kp : Nat) (msg msgp : String) (detect detectp : Nat → Bool)
    (hpre : ∀ l ∈ pre, isFaultLine l = false ∧ pred l = false)
    (hln : isFaultLine ln = true)
    (hk1 : 1 ≤ k) (hk2 : k < ROWS * COLS)
    (hkp : kp < ROWS * COLS) (hdetp : detectp kp = true) :
    wait_for pred label (pre ++ ln :: post) = .error (faultMsg ln label) ∧
    (run_scan (faultEnv k msg detect)).error = some msg ∧
    (run_scan (faultEnv k msg detect)).cancelled = false ∧
    (run_scan (faultEnv k msg detect)).cells_scanned = k ∧
    callerWritesLog (run_scan (faultEnv k msg detect)) = false ∧
    (run_scan (pumpFaultEnv kp msgp detectp)).error = some msgp ∧
    (run_scan (pumpFaultEnv kp msgp detectp)).cancelled = false ∧
    (run_scan (pumpFaultEnv kp msgp detectp)).cells_scanned = kp + 1 ∧
    callerWritesLog (run_scan (pumpFaultEnv kp msgp detectp)) = false := by
  have hmove : (run_scan (faultEnv k msg detect)).error = some msg ∧
      (run_scan (faultEnv k msg detect)).cancelled = false ∧
      (run_scan (faultEnv k msg detect)).cells_scanned = k ∧
      callerWritesLog (run_scan (faultEnv k msg detect)) = false := by
    set env : ScanEnv := faultEnv k msg detect with henv
    have hclean : cleanBelow env k := by
      intro j hj
      refine ⟨rfl, ?_, rfl⟩
      simp [henv, faultEnv, Nat.ne_of_lt hj]
    have hcan : env.cancel k = false := rfl
    have hfault : env.moveFault k = some msg := by simp [henv, faultEnv]
    have hrows : (runRows env COLS (List.range ROWS) ⟨0, 0, []⟩).2
        = some (.errorE msg) ∧
        (runRows env COLS (List.range ROWS) ⟨0, 0, []⟩).1.cells = k := by
      have hr5 : List.range ROWS = 0 :: [1, 2, 3, 4] := by decide
      rw [hr5, runRows]
      have hcan0 : env.cancel 0 = false := rfl
      rw [hcan0]
      simp only [Bool.false_eq_true, if_false]
      have hlen : ((rowCells COLS 0).enum).length = COLS := by
        rw [List.enum_length, rowCells_length]
      have hA : (0:Nat) = 0 →
          ∀ (i : Nat) (h : i < ((rowCells COLS 0).enum).length),
            (((rowCells COLS 0).enum).get ⟨i, h⟩).1
              = (⟨0, 0, []⟩ : ScanState).cells + i := by
        intro _ i h
        have := enumFrom_get_fst (rowCells COLS 0) 0 i
          (by simpa [List.enum] using h)
        simpa [List.enum] using this
      by_cases hrow : k < COLS
      · have hc := runCells_faultStop env k msg hclean hcan hfault hk1
          0 (rowXStep 0) ((rowCells COLS 0).enum) ⟨0, 0, []⟩ hA
          (Nat.zero_le k) (by rw [hlen]; simpa [COLS] using hrow)
        rcases hcell : runCells env 0 (rowXStep 0) ((rowCells COLS 0).enum)
          ⟨0, 0, []⟩ with ⟨st', e⟩
        rw [hcell] at hc
        obtain ⟨he, hcells⟩ := hc
        simp only at he hcells
        rw [he]
        exact ⟨rfl, hcells⟩
      · push_neg at hrow
        obtain ⟨p, hp⟩ := runCells_clean env k hclean 0 (rowXStep 0)
          ((rowCells COLS 0).enum) ⟨0, 0, []⟩
          (by rw [hlen]; simpa [COLS] using hrow)
        rw [hp]
        refine runRows_faultStop env k COLS msg hclean hcan hfault hk1
          [1, 2, 3, 4] _ (by decide) (by simp [hlen]; omega) ?_
        have hk2' : k < 25 := by
          have h25 := hk2
          simp only [ROWS, COLS] at h25
          omega
        simp only [hlen, List.length_cons, List.length_nil]
        show k < 0 + COLS + 4 * COLS
        simp only [COLS]
        omega
    rw [run_scan, runScanLoop]
    rcases hrun : runRows env COLS (List.range ROWS) ⟨0, 0, []⟩ with ⟨st, e⟩
    rw [hrun] at hrows
    obtain ⟨he, hcells⟩ := hrows
    simp only at he hcells
    subst he
    simp [callerWritesLog, hcells]
  have hpump : (run_scan (pumpFaultEnv kp msgp detectp)).error = some msgp ∧
      (run_scan (pumpFaultEnv kp msgp detectp)).cancelled = false ∧
      (run_scan (pumpFaultEnv kp msgp detectp)).cells_scanned = kp + 1 ∧
      callerWritesLog (run_scan (pumpFaultEnv kp msgp detectp)) = false := by
    set env : ScanEnv := pumpFaultEnv kp msgp detectp with henv
    have hclean : cleanBelow env kp := by
      intro j hj
      refine ⟨rfl, rfl, ?_⟩
      simp [henv, pumpFaultEnv, Nat.ne_of_lt hj]
    have hpf : env.pumpFault kp = some msgp := by simp [henv, pumpFaultEnv]
    have hrows := runRows_pumpStop env kp COLS msgp hclean rfl rfl hdetp hpf
      (List.range ROWS) ⟨0, 0, []⟩ (Nat.zero_le kp)
      (by simpa [List.length_range, Nat.mul_comm] using hkp)
    rw [run_scan, runScanLoop]
    rcases hrun : runRows env COLS (List.range ROWS) ⟨0, 0, []⟩ with ⟨st, e⟩
    rw [hrun] at hrows
    obtain ⟨he, hcells⟩ := hrows
    simp only at he hcells
    subst he
    simp [callerWritesLog, hcells]
  exact ⟨wait_for_fault_preempts pred label pre ln post hpre hln,
    hmove.1, hmove.2.1, hmove.2.2.1, hmove.2.2.2,
    hpump.1, hpump.2.1, hpump.2.2.1, hpump.2.2.2⟩

/-- Witness for C5: a fault line that also matches the predicate (so the
preemption is visible), preceded by one inert line; a move fault at cell
3 with one plant detected earlier; a pump fault at cell 5 where a plant
is detected. -/
theorem C5_witness :
    ((∀ l ∈ ["READY"], isFaultLine l = false ∧
        (fun s => isFaultLine s || s == "FAULT LIMIT") l = false) ∧
      isFaultLine "FAULT LIMIT" = true ∧ 1 ≤ 3 ∧ 3 < ROWS * COLS ∧
      5 < ROWS * COLS ∧ (fun j => j == 5) 5 = true) ∧
    (wait_for (fun s => isFaultLine s || s == "FAULT LIMIT") "DONE MOVE"
        (["READY"] ++ "FAULT LIMIT" :: ["DONE MOVE"])
        = .error (faultMsg "FAULT LIMIT" "DONE MOVE") ∧
      (run_scan (faultEnv 3 "limit hit" (fun j => j == 1))).error
          = some "limit hit" ∧
      (run_scan (faultEnv 3 "limit hit" (fun j => j == 1))).cancelled = false ∧
      (run_scan (faultEnv 3 "limit hit" (fun j => j == 1))).cells_scanned = 3 ∧
      callerWritesLog (run_scan (faultEnv 3 "limit hit" (fun j => j == 1)))
          = false ∧
      (run_scan (pumpFaultEnv 5 "pump stall" (fun j => j == 5))).error
          = some "pump stall" ∧
      (run_scan (pumpFaultEnv 5 "pump stall" (fun j => j == 5))).cancelled
          = false ∧
      (run_scan (pumpFaultEnv 5 "pump stall" (fun j => j == 5))).cells_scanned
          = 5 + 1 ∧
      callerWritesLog
          (run_scan (pumpFaultEnv 5 "pump stall" (fun j => j == 5)))
          = false) :=
  ⟨⟨by decide, by decide, by norm_num, by norm_num [ROWS, COLS],
      by norm_num [ROWS, COLS], by decide⟩,
    C5_fault_aborts (fun s => isFaultLine s || s == "FAULT LIMIT") "DONE MOVE"
      ["READY"] "FAULT LIMIT" ["DONE MOVE"] 3 5 "limit hit" "pump stall"
      (fun j => j == 1) (fun j => j == 5)
      (by decide) (by decide) (by norm_num) (by norm_num [ROWS, COLS])
      (by norm_num [ROWS, COLS]) (by decide)⟩

/-! ## Schedule data and the scheduler (`server.py`)

Python dicts with string keys are modelled as insertion-ordered association
lists; `find?` on the key models `in` / indexing (keys are unique in all
the dicts the server builds, so first-match lookup is faithful). -/

/-- Python `dict.get(k, d)`: the value bound to `k`, or the default. -/
def alistGetD {α : Type} (m : List (String × α)) (k : String) (d : α) : α :=
  match m.find? (fun p => p.1 == k) with
  | some p => p.2
  | none => d

/-- Python `k in dict`. -/
def alistContains {α : Type} (m : List (String × α)) (k : String) : Bool :=
  (m.find? (fun p => p.1 == k)).isSome

/-- Python `dict[k] = v`: replace the binding in place when present,
append it otherwise. -/
def alistSet {α : Type} (m : List (String × α)) (k : String) (v : α) :
    List (String × α) :=
  if alistContains m k then
    m.map (fun p => if p.1 == k then (k, v) else p)
  else
    m ++ [(k, v)]

/-- `PYTHON_WEEKDAY_KEYS` from `server.py`. -/
def PYTHON_WEEKDAY_KEYS : List String :=
  ["mon", "tue", "wed", "thu", "fri", "sat", "sun"]

/-- The in-memory `schedule_data` as maintained by the server after a
normal load: recurring times per weekday, one-off times per date, and the
watering log mapping a date to the time it was watered. -/
structure ScheduleData where
  weekly : List (String × List String)
  date_specific : List (String × List String)
  watered_log : List (String × String)
deriving Repr, DecidableEq

/-- The global server flags read (`scan_in_progress`, `SCAN_AVAILABLE`,
serial link) or merely present (`move_in_progress`) during a scheduler
tick. -/
structure ServerFlags where
  scan_in_progress : Bool
  move_in_progress : Bool
  scan_available : Bool
  serial_connected : Bool
deriving Repr, DecidableEq

/-- Embedding of the decision part of one iteration of `scheduler_loop`
(`server.py`, lines 449-476): returns whether a scheduled scan is started
on this tick.  The guards consult `scan_in_progress`, `SCAN_AVAILABLE` and
the serial link; `move_in_progress` is part of the server state but is not
read anywhere in the loop.  A scan starts when the current HH:MM is in the
union of this weekday's recurring times and today's one-off times and no
`watered_log` entry exists for today. -/
def scheduler_tick (flags : ServerFlags) (sd : ScheduleData)
    (day_key today_key current_hhmm : String) : Bool :=
  if flags.scan_in_progress then false
  else if !flags.scan_available then false
  else if !flags.serial_connected then false
  else
    let weekly_times := alistGetD sd.weekly day_key []
    let date_times := alistGetD sd.date_specific today_key []
    if current_hhmm ∈ weekly_times ++ date_times then
      if alistContains sd.watered_log today_key then false
      else true
    else false

/-- The `watered_log` update performed by `execute_scheduled_scan`
(`server.py`, lines 431-435) after a scan that was neither cancelled nor
in error. -/
def recordWatered (sd : ScheduleData) (today_key time_str : String) :
    ScheduleData :=
  { sd with watered_log := alistSet sd.watered_log today_key time_str }

/-- If the key `k` is absent from `m`, looking it up in `m ++ [(k, v)]`
finds `(k, v)`. -/
theorem find?_append_self {α : Type} (k : String) (v : α) :
    ∀ (m : List (String × α)), alistContains m k = false →
      ((m ++ [(k, v)]).find? (fun p => p.1 == k)) = some (k, v) := by
  intro m
  induction m with
  | nil => intro _; simp [List.find?]
  | cons p rest ih =>
    intro h
    unfold alistContains at h
    rw [List.find?_cons] at h
    rcases hp : (p.1 == k) with _ | _
    · rw [List.cons_append, List.find?_cons, hp]
      refine ih ?_
      unfold alistContains
      rw [hp] at h
      simpa using h
    · rw [hp] at h; simp at h

/-- If the key `k` is present in `m`, replacing its binding with `(k, v)`
makes lookup find `(k, v)`. -/
theorem find?_set_present {α : Type} (k : String) (v : α) :
    ∀ (m : List (String × α)), alistContains m k = true →
      ((m.map (fun p => if p.1 == k then (k, v) else p)).find?
        (fun p => p.1 == k)) = some (k, v) := by
  intro m
  induction m with
  | nil => intro h; simp [alistContains, List.find?] at h
  | cons p rest ih =>
    intro h
    rcases hp : (p.1 == k) with _ | _
    · rw [List.map_cons, if_neg (by simp [hp]), List.find?_cons, hp]
      refine ih ?_
      unfold alistContains at h ⊢
      rw [List.find?_cons, hp] at h
      simpa using h
    · rw [List.map_cons, if_pos (by simpa using hp), List.find?_cons]
      simp

/-- After `m[k] = v`, the dict contains the key `k`. -/
theorem alistContains_set {α : Type} (m : List (String × α)) (k : String)
    (v : α) : alistContains (alistSet m k v) k = true := by
  unfold alistSet
  rcases hc : alistContains m k with _ | _
  · simp only [Bool.false_eq_true, if_false]
    unfold alistContains
    rw [find?_append_self k v m hc]
    rfl
  · simp only [if_true]
    unfold alistContains
    rw [find?_set_present k v m hc]
    rfl

/-- C6: on a scheduler tick whose current HH:MM is in the union of today's
weekday recurring times and today's date-specific times, with no scan in
progress, detection available, the serial link connected, and no
`watered_log` entry for today, the scan path is taken (exactly one scan is
started, since one tick runs `execute_scheduled_scan` at most once); and
after the completed scan has recorded today's `watered_log` entry, a later
tick at the same matching time starts none. -/
theorem C6_scheduler_once_per_day (flags : ServerFlags) (sd : ScheduleData)
    (day_key today_key current_hhmm time_str : String)
    (hscan : flags.scan_in_progress = false)
    (havail : flags.scan_available = true)
    (hser : flags.serial_connected = true)
    (hmatch : current_hhmm ∈ alistGetD sd.weekly day_key []
        ++ alistGetD sd.date_specific today_key [])
    (hnolog : alistContains sd.watered_log today_key = false) :
    scheduler_tick flags sd day_key today_key current_hhmm = true ∧
    scheduler_tick flags (recordWatered sd today_key time_str)
      day_key today_key current_hhmm = false := by
  constructor
  · unfold scheduler_tick
    rw [hscan, havail, hser]
    simp only [Bool.not_true, Bool.false_eq_true, if_false]
    rw [if_pos hmatch, hnolog]
    simp
  · unfold scheduler_tick
    rw [hscan, havail, hser]
    simp only [Bool.not_true, Bool.false_eq_true, if_false]
    rw [if_pos (by simpa [recordWatered] using hmatch)]
    have hlog : alistContains (recordWatered sd today_key time_str).watered_log
        today_key = true := alistContains_set _ _ _
    rw [hlog]
    simp

/-- Witness for C6: Monday 08:00 recurring schedule, empty log. -/
theorem C6_witness :
    ((⟨false, false, true, true⟩ : ServerFlags).scan_in_progress = false ∧
      "08:00" ∈ alistGetD [("mon", ["08:00"])] "mon" ([] : List String)
        ++ alistGetD ([] : List (String × List String)) "2026-10-12" [] ∧
      alistContains ([] : List (String × String)) "2026-10-12" = false) ∧
    (scheduler_tick ⟨false, false, true, true⟩
        ⟨[("mon", ["08:00"])], [], []⟩ "mon" "2026-10-12" "08:00" = true ∧
      scheduler_tick ⟨false, false, true, true⟩
        (recordWatered ⟨[("mon", ["08:00"])], [], []⟩ "2026-10-12" "8:05 AM")
        "mon" "2026-10-12" "08:00" = false) :=
  ⟨⟨rfl, by decide, by decide⟩,
    C6_scheduler_once_per_day ⟨false, false, true, true⟩
      ⟨[("mon", ["08:00"])], [], []⟩ "mon" "2026-10-12" "08:00" "8:05 AM"
      rfl rfl rfl (by decide) (by decide)⟩

/-- C7 counterexample: with a jog in progress (`move_in_progress = true`)
but no scan running, detection available, the serial link connected, a
matching schedule and no log entry, the scheduler still starts a scan —
the code never reads `move_in_progress` — so the claim that a tick is
skipped whenever "a scan or a motion is already in progress" is false. -/
theorem C7_counterexample :
    (⟨false, true, true, true⟩ : ServerFlags).move_in_progress = true ∧
    scheduler_tick ⟨false, true, true, true⟩
      ⟨[("mon", ["08:00"])], [], []⟩ "mon" "2026-10-12" "08:00" = true := by
  exact ⟨rfl, by decide⟩

/-- C7 (amended): a scheduler tick is skipped, and no scan started, when a
scan is already in progress, or the detection capability is unavailable,
or the serial link is not connected; a jog/home motion in progress does
not by itself prevent the scheduler from starting a scan. -/
theorem C7_scheduler_guards (flags : ServerFlags) (sd : ScheduleData)
    (day_key today_key current_hhmm : String)
    (h : flags.scan_in_progress = true ∨ flags.scan_available = false ∨
      flags.serial_connected = false) :
    scheduler_tick flags sd day_key today_key current_hhmm = false := by
  unfold scheduler_tick
  rcases h with h | h | h
  · rw [h]; simp
  · rw [h]; simp
  · rw [h]
    rcases hs : flags.scan_in_progress with _ | _
    · simp only [hs, Bool.false_eq_true, if_false]
      rcases ha : flags.scan_available with _ | _ <;> simp
    · simp

/-- Witness for C7's amended theorem: serial disconnected blocks the tick
even with a matching schedule. -/
theorem C7_witness :
    ((⟨false, false, true, false⟩ : ServerFlags).scan_in_progress = true ∨
      (⟨false, false, true, false⟩ : ServerFlags).scan_available = false ∨
      (⟨false, false, true, false⟩ : ServerFlags).serial_connected = false) ∧
    scheduler_tick ⟨false, false, true, false⟩
      ⟨[("mon", ["08:00"])], [], []⟩ "mon" "2026-10-12" "08:00" = false :=
  ⟨Or.inr (Or.inr rfl),
    C7_scheduler_guards ⟨false, false, true, false⟩
      ⟨[("mon", ["08:00"])], [], []⟩ "mon" "2026-10-12" "08:00"
      (Or.inr (Or.inr rfl))⟩

/-! ## Schedule persistence (`server.py`, `load_schedules` / `save_schedules`)

JSON values are modelled by `JValue` (the fragment the schedule file uses:
strings, arrays, objects); `json.dump` followed by `json.load` is modelled
as the identity on the JSON value, the backfilling performed by
`load_schedules` as an explicit function on parsed objects.  Object fields
are insertion-ordered, as in Python; `setdefault` appends at the end. -/

/-- A JSON value (the fragment relevant to the schedule file and the
SET_SCHEDULES payloads: strings, arrays, objects). -/
inductive JValue where
  | jstr : String → JValue
  | jarr : List JValue → JValue
  | jobj : List (String × JValue) → JValue
deriving Repr

/-- Lookup of `fields[k]` in a JSON object. -/
def lookupJ (fields : List (String × JValue)) (k : String) : Option JValue :=
  match fields.find? (fun p => p.1 == k) with
  | some p => some p.2
  | none => none

/-- Python `dict.setdefault(k, v)` on a JSON object: no change when the key
is present, append the binding otherwise. -/
def setdefaultJ (fields : List (String × JValue)) (k : String) (v : JValue) :
    List (String × JValue) :=
  if (lookupJ fields k).isSome then fields else fields ++ [(k, v)]

/-- Replace the value bound to key `k` in place. -/
def updateJ (fields : List (String × JValue)) (k : String) (v : JValue) :
    List (String × JValue) :=
  fields.map (fun p => if p.1 == k then (k, v) else p)

/-- The `weekly` field of `DEFAULT_SCHEDULE` (`server.py`, line 112):
each weekday bound to an empty list. -/
def defaultWeekly : JValue :=
  .jobj (PYTHON_WEEKDAY_KEYS.map (fun d => (d, .jarr [])))

/-- The backfilling pass of `load_schedules` (`server.py`, lines 118-126)
applied to the parsed JSON object: `setdefault` each of the three
top-level fields (in the insertion order of `DEFAULT_SCHEDULE`), then
`setdefault` each weekday key inside `weekly`.  `none` models the uncaught
`AttributeError` when the `weekly` value is not an object. -/
def load_backfill (data : List (String × JValue)) :
    Option (List (String × JValue)) :=
  let d1 := setdefaultJ data "weekly" defaultWeekly
  let d2 := setdefaultJ d1 "date_specific" (.jobj [])
  let d3 := setdefaultJ d2 "watered_log" (.jobj [])
  match lookupJ d3 "weekly" with
  | some (.jobj wfs) =>
    some (updateJ d3 "weekly"
      (.jobj (PYTHON_WEEKDAY_KEYS.foldl
        (fun fs d => setdefaultJ fs d (.jarr [])) wfs)))
  | _ => none

/-- The JSON encoding of a list of "HH:MM" strings. -/
def timesToJ (ts : List String) : JValue := .jarr (ts.map .jstr)

/-- The JSON object that `save_schedules` writes for an in-memory
`ScheduleData` (`json.dump` of the dict with its three fields in
insertion order). -/
def ScheduleData.toJ (sd : ScheduleData) : List (String × JValue) :=
  [("weekly", .jobj (sd.weekly.map (fun p => (p.1, timesToJ p.2)))),
    ("date_specific", .jobj (sd.date_specific.map (fun p => (p.1, timesToJ p.2)))),
    ("watered_log", .jobj (sd.watered_log.map (fun p => (p.1, .jstr p.2))))]

/-- The JSON object of a schedule file that lacks the `date_specific`
field (the other two fields as `save_schedules` would write them). -/
def ScheduleData.toJNoDS (sd : ScheduleData) : List (String × JValue) :=
  [("weekly", .jobj (sd.weekly.map (fun p => (p.1, timesToJ p.2)))),
    ("watered_log", .jobj (sd.watered_log.map (fun p => (p.1, .jstr p.2))))]

/-- A binding found in `fields` is still found after appending more
bindings. -/
theorem lookupJ_append_left (k : String) (l2 : List (String × JValue)) :
    ∀ (fields : List (String × JValue)) (v : JValue),
      lookupJ fields k = some v → lookupJ (fields ++ l2) k = some v := by
  intro fields
  induction fields with
  | nil => intro v hv; simp [lookupJ, List.find?] at hv
  | cons p rest ih =>
    intro v hv
    unfold lookupJ at hv ⊢
    rw [List.find?_cons] at hv
    rw [List.cons_append, List.find?_cons]
    rcases hp : (p.1 == k) with _ | _
    · rw [hp] at hv
      have := ih v (by unfold lookupJ; exact hv)
      unfold lookupJ at this
      exact this
    · rw [hp] at hv
      exact hv

/-- A key absent from `fields` is looked up in the appended part. -/
theorem lookupJ_append_right (k : String) (l2 : List (String × JValue)) :
    ∀ (fields : List (String × JValue)),
      lookupJ fields k = none → lookupJ (fields ++ l2) k = lookupJ l2 k := by
  intro fields
  induction fields with
  | nil => intro _; simp
  | cons p rest ih =>
    intro hv
    unfold lookupJ at hv ⊢
    rw [List.find?_cons] at hv
    rw [List.cons_append, List.find?_cons]
    rcases hp : (p.1 == k) with _ | _
    · rw [hp] at hv
      have := ih (by unfold lookupJ; exact hv)
      unfold lookupJ at this
      exact this
    · rw [hp] at hv
      simp at hv

/-- `setdefault` preserves every existing binding. -/
theorem lookupJ_setdefault_preserves (fields : List (String × JValue))
    (k k2 : String) (v v2 : JValue) (h : lookupJ fields k2 = some v2) :
    lookupJ (setdefaultJ fields k v) k2 = some v2 := by
  unfold setdefaultJ
  split
  · exact h
  · exact lookupJ_append_left k2 [(k, v)] fields v2 h

/-- After `setdefault k`, the key `k` is bound. -/
theorem lookupJ_setdefault_self (fields : List (String × JValue))
    (k : String) (v : JValue) :
    (lookupJ (setdefaultJ fields k v) k).isSome = true := by
  unfold setdefaultJ
  split
  case isTrue h => exact h
  case isFalse h =>
    rw [lookupJ_append_right k [(k, v)] fields
      (by cases hl : lookupJ fields k with
        | none => rfl
        | some w => rw [hl] at h; simp at h)]
    simp [lookupJ, List.find?]

/-- The weekday-backfill fold leaves an object alone when every weekday
key is already bound. -/
theorem foldl_setdefault_of_present :
    ∀ (keys : List String) (fs : List (String × JValue)),
      (∀ d ∈ keys, (lookupJ fs d).isSome = true) →
      keys.foldl (fun fs d => setdefaultJ fs d (.jarr [])) fs = fs := by
  intro keys
  induction keys with
  | nil => intro fs _; rfl
  | cons d rest ih =>
    intro fs hall
    rw [List.foldl_cons]
    have hd : setdefaultJ fs d (.jarr []) = fs := by
      unfold setdefaultJ
      rw [if_pos (hall d (by simp))]
    rw [hd]
    exact ih fs (fun x hx => hall x (List.mem_cons_of_mem d hx))

/-- After the weekday-backfill fold, every weekday key is bound, and every
binding present before is unchanged. -/
theorem foldl_setdefault_covers :
    ∀ (keys : List String) (fs : List (String × JValue)),
      (∀ d ∈ keys,
        (lookupJ (keys.foldl (fun fs d => setdefaultJ fs d (.jarr [])) fs)
          d).isSome = true) ∧
      (∀ k v, lookupJ fs k = some v →
        lookupJ (keys.foldl (fun fs d => setdefaultJ fs d (.jarr [])) fs) k
          = some v) := by
  intro keys
  induction keys with
  | nil => intro fs; exact ⟨by simp, fun _ _ h => h⟩
  | cons d rest ih =>
    intro fs
    rw [List.foldl_cons]
    obtain ⟨ihmem, ihpres⟩ := ih (setdefaultJ fs d (.jarr []))
    refine ⟨?_, ?_⟩
    · intro x hx
      rcases List.mem_cons.mp hx with hx | hx
      · subst hx
        cases hl : lookupJ (setdefaultJ fs x (.jarr [])) x with
        | none =>
          have := lookupJ_setdefault_self fs x (.jarr [])
          rw [hl] at this; simp at this
        | some w =>
          rw [ihpres x w hl]
          rfl
      · exact ihmem x hx
    · intro k v hv
      exact ihpres k v (lookupJ_setdefault_preserves fs d k (.jarr []) v hv)

/-- C8: (i) saving a valid `ScheduleData` (all three fields, all seven
weekday keys under `weekly`) and loading it back yields an equal JSON
structure; (ii) loading a record missing the `date_specific` field
backfills it with an empty object instead of failing; (iii) loading any
record whose `weekly` value is an object backfills the missing weekday
keys with empty lists, leaves the bindings that were present untouched,
and succeeds. -/
theorem C8_schedule_roundtrip (sd : ScheduleData)
    (hweek : ∀ d ∈ PYTHON_WEEKDAY_KEYS,
      (lookupJ (sd.weekly.map (fun p => (p.1, timesToJ p.2))) d).isSome
        = true) :
    load_backfill (ScheduleData.toJ sd) = some (ScheduleData.toJ sd) ∧
    load_backfill (ScheduleData.toJNoDS sd)
      = some (ScheduleData.toJNoDS sd ++ [("date_specific", JValue.jobj [])]) ∧
    (∀ (wfs : List (String × JValue)) (ds wl : JValue),
      ∃ wfs2, load_backfill [("weekly", .jobj wfs), ("date_specific", ds),
          ("watered_log", wl)]
        = some [("weekly", .jobj wfs2), ("date_specific", ds),
            ("watered_log", wl)] ∧
        (∀ d ∈ PYTHON_WEEKDAY_KEYS, (lookupJ wfs2 d).isSome = true) ∧
        (∀ k v, lookupJ wfs k = some v → lookupJ wfs2 k = some v)) := by
  have hfold := foldl_setdefault_of_present PYTHON_WEEKDAY_KEYS
    (sd.weekly.map (fun p => (p.1, timesToJ p.2))) hweek
  refine ⟨?_, ?_, ?_⟩
  · show some (updateJ (ScheduleData.toJ sd) "weekly"
      (.jobj (PYTHON_WEEKDAY_KEYS.foldl (fun fs d => setdefaultJ fs d (.jarr []))
        (sd.weekly.map (fun p => (p.1, timesToJ p.2))))))
      = some (ScheduleData.toJ sd)
    rw [hfold]
    rfl
  · show some (updateJ
      (ScheduleData.toJNoDS sd ++ [("date_specific", JValue.jobj [])]) "weekly"
      (.jobj (PYTHON_WEEKDAY_KEYS.foldl (fun fs d => setdefaultJ fs d (.jarr []))
        (sd.weekly.map (fun p => (p.1, timesToJ p.2))))))
      = some (ScheduleData.toJNoDS sd ++ [("date_specific", JValue.jobj [])])
    rw [hfold]
    rfl
  · intro wfs ds wl
    refine ⟨PYTHON_WEEKDAY_KEYS.foldl (fun fs d => setdefaultJ fs d (.jarr []))
      wfs, rfl, (foldl_setdefault_covers PYTHON_WEEKDAY_KEYS wfs).1,
      (foldl_setdefault_covers PYTHON_WEEKDAY_KEYS wfs).2⟩

/-- Witness for C8 at a small concrete schedule (all weekday keys present,
one Monday time, one date-specific day, one log entry). -/
theorem C8_witness :
    (∀ d ∈ PYTHON_WEEKDAY_KEYS,
      (lookupJ (((⟨[("mon", ["08:00"]), ("tue", []), ("wed", []), ("thu", []),
          ("fri", []), ("sat", []), ("sun", [])],
          [("2026-10-12", ["09:30"])],
          [("2026-10-11", "9:31 AM")]⟩ : ScheduleData)).weekly.map
        (fun p => (p.1, timesToJ p.2))) d).isSome = true) ∧
    load_backfill (ScheduleData.toJ ⟨[("mon", ["08:00"]), ("tue", []),
        ("wed", []), ("thu", []), ("fri", []), ("sat", []), ("sun", [])],
        [("2026-10-12", ["09:30"])], [("2026-10-11", "9:31 AM")]⟩)
      = some (ScheduleData.toJ ⟨[("mon", ["08:00"]), ("tue", []), ("wed", []),
          ("thu", []), ("fri", []), ("sat", []), ("sun", [])],
          [("2026-10-12", ["09:30"])], [("2026-10-11", "9:31 AM")]⟩) :=
  ⟨by decide,
    (C8_schedule_roundtrip ⟨[("mon", ["08:00"]), ("tue", []), ("wed", []),
        ("thu", []), ("fri", []), ("sat", []), ("sun", [])],
        [("2026-10-12", ["09:30"])], [("2026-10-11", "9:31 AM")]⟩
      (by decide)).1⟩

/-! ## SET_SCHEDULES handling (`server.py`, `handle_connection`) -/

/-- Python `"k" in x` for a parsed JSON value `x`: substring test on
strings, element equality on arrays (a JSON element equals a Python string
only when it is that string), key membership on objects. -/
def pyContainsKey (x : JValue) (k : String) : Bool :=
  match x with
  | .jstr s => decide (k.toList <:+: s.toList)
  | .jarr xs => xs.any (fun e => match e with | .jstr t => t == k | _ => false)
  | .jobj fields => (lookupJ fields k).isSome

/-- The in-memory `schedule_data` dict: after a normal load it always has
the three top-level fields, whose values a SET_SCHEDULES command can
replace by arbitrary JSON. -/
structure SchedDict where
  weekly : JValue
  date_specific : JValue
  watered_log : JValue

/-- Embedding of the `SET_SCHEDULES` branch of `handle_connection`
(`server.py`, lines 521-532).  `payload = none` models a `json.loads`
failure.  For a parsed value, `if "weekly" in payload:
schedule_data["weekly"] = payload["weekly"]` assigns the field for object
payloads; for a string or array payload whose membership test passes, the
indexing raises `TypeError` before any assignment, which the handler
catches and reports.  Returns the updated state and whether an error
message was sent (`save_schedules` is modelled as succeeding).
`applyWeekly` is the statement `if "weekly" in payload:
schedule_data["weekly"] = payload["weekly"]` for an object payload. -/
def applyWeekly (st : SchedDict) (fields : List (String × JValue)) :
    SchedDict :=
  match lookupJ fields "weekly" with
  | some v => { st with weekly := v }
  | none => st

/-- The statement `if "date_specific" in payload:
schedule_data["date_specific"] = payload["date_specific"]` for an object
payload (`server.py`, lines 526-527). -/
def applyDateSpecific (st : SchedDict) (fields : List (String × JValue)) :
    SchedDict :=
  match lookupJ fields "date_specific" with
  | some v => { st with date_specific := v }
  | none => st

/-- The full SET_SCHEDULES branch; see `applyWeekly` for the conventions. -/
def handle_set_schedules (st : SchedDict) (payload : Option JValue) :
    SchedDict × Bool :=
  match payload with
  | none => (st, true)
  | some (.jobj fields) =>
    (applyDateSpecific (applyWeekly st fields) fields, false)
  | some (.jstr s) =>
    if pyContainsKey (.jstr s) "weekly" then (st, true)
    else if pyContainsKey (.jstr s) "date_specific" then (st, true)
    else (st, false)
  | some (.jarr xs) =>
    if pyContainsKey (.jarr xs) "weekly" then (st, true)
    else if pyContainsKey (.jarr xs) "date_specific" then (st, true)
    else (st, false)

/-- Unfolding equation of `handle_set_schedules` on a string payload. -/
theorem handle_set_schedules_jstr (st : SchedDict) (s : String) :
    handle_set_schedules st (some (.jstr s))
      = if pyContainsKey (.jstr s) "weekly" = true then (st, true)
        else if pyContainsKey (.jstr s) "date_specific" = true then (st, true)
        else (st, false) := rfl

/-- Unfolding equation of `handle_set_schedules` on an array payload. -/
theorem handle_set_schedules_jarr (st : SchedDict) (xs : List JValue) :
    handle_set_schedules st (some (.jarr xs))
      = if pyContainsKey (.jarr xs) "weekly" = true then (st, true)
        else if pyContainsKey (.jarr xs) "date_specific" = true then (st, true)
        else (st, false) := rfl

/-- C10: no SET_SCHEDULES command — well-formed or not — ever changes the
`watered_log` field of the schedule state: the handler reads only the
`weekly` and `date_specific` keys of the payload, so a client can never
alter or clear the watering history through SET_SCHEDULES. -/
theorem C10_watered_log_frame (st : SchedDict) (payload : Option JValue) :
    (handle_set_schedules st payload).1.watered_log = st.watered_log := by
  rcases payload with _ | v
  · rfl
  · cases v with
    | jstr s =>
      rw [handle_set_schedules_jstr]
      split_ifs <;> rfl
    | jarr xs =>
      rw [handle_set_schedules_jarr]
      split_ifs <;> rfl
    | jobj fields =>
      show (applyDateSpecific (applyWeekly st fields) fields).watered_log
        = st.watered_log
      unfold applyDateSpecific applyWeekly
      cases hw : lookupJ fields "weekly" <;>
        cases hd : lookupJ fields "date_specific" <;>
          simp [hw, hd]

end Botanical
